import Mathlib

/-!
# Logic_library: the frame buffer of `Display` and the `random` helpers

A shallow embedding of `include/Display.hpp` (the inline members `setColor`,
`clear`, `drawRectangleFilled`, `drawSquare`, `drawSquareFilled`) and of
`include/ArduinoLikeUtils.hpp` (`random(long)`, `random(long, long)`).

* `int` and `long` values are `Int`; unsigned 32/64-bit values are `Nat`, reduced
  explicitly modulo `2^32` / `2^64` wherever the C++ code converts or wraps.
* `std::array<Rgb, m_width * m_height>` is a function `Fin 120 → Rgb`.
* A member function that mutates the display is a function returning the new
  frame; `none` stands for an array access outside the array.
* `esp_random()` is the hardware generator: it is an arbitrary stream of values
  together with the position of the next value to hand out.
-/

namespace LogicLibrary

/-! ## Display.hpp -/

/-- The `Rgb` pixel of the SmartLeds library, built by `Rgb(r, g, b)`: three 8-bit
channels. -/
structure Rgb where
  r : Fin 256
  g : Fin 256
  b : Fin 256
deriving DecidableEq, Repr

/-- The `Rectangle` struct: `int x, y; int w, h;`. -/
structure Rectangle where
  x : Int
  y : Int
  w : Int
  h : Int
deriving DecidableEq, Repr

/-- The constant `INT_MAX` of a 32-bit `int`. -/
def INT_MAX : Int := 2147483647

/-- The member `static constexpr int m_width = 10`. -/
def m_width : Int := 10

/-- The member `static constexpr int m_height = 12`. -/
def m_height : Int := 12

/-- Number of elements of `m_frame`: `m_width * m_height`. -/
def frameSize : Nat := 120

/-- The member `std::array<Rgb, m_width * m_height> m_frame`. -/
abbrev Frame : Type := Fin frameSize → Rgb

/-- Result of a 32-bit signed `int` or `long` operation, reduced to the range
`[-2^31, 2^31)` by two's complement wrap-around. The theorems below show that the
operations they reach stay inside the range, where the reduction changes nothing. -/
def wrapInt (v : Int) : Int := (v + 2147483648) % 4294967296 - 2147483648

/-- The index expression `(y * m_width) + x` of `setColor`, in `int` arithmetic. -/
def frameIndex (x y : Int) : Int := wrapInt (wrapInt (y * m_width) + x)

/-- Reading `m_frame[i]`: `none` when `i` is not an index of the array. -/
def frameGet (f : Frame) (i : Int) : Option Rgb :=
  if h : 0 ≤ i ∧ i < (frameSize : Int) then
    some (f ⟨i.toNat, by have := h.1; have := h.2; omega⟩)
  else none

/-- The assignment `m_frame[i] = color`: `none` when `i` is not an index of the
array. -/
def frameSet (f : Frame) (i : Int) (color : Rgb) : Option Frame :=
  if h : 0 ≤ i ∧ i < (frameSize : Int) then
    some (Function.update f ⟨i.toNat, by have := h.1; have := h.2; omega⟩ color)
  else none

/-- The inline member `Display::setColor`:
`if ((x > (m_width - 1)) || (y > (m_width - 1)) || (x < 0) || (y < 0)) return;`
`m_frame[(y * m_width) + x] = color;`. -/
def setColor (f : Frame) (x y : Int) (color : Rgb) : Option Frame :=
  if x > m_width - 1 ∨ y > m_width - 1 ∨ x < 0 ∨ y < 0 then
    some f
  else
    frameSet f (frameIndex x y) color

/-- Modelled from the spec: `Display::at` is declared in `Display.hpp` and its body
is in `Display.cpp`, which is not among the sources. The spec has the frame "indexed
by `y * width + x`" and `at(x, y)` return "the pixel at (x,y)", trusting the
caller with the range; a position outside the array gives `none`. -/
def Display.at (f : Frame) (x y : Int) : Option Rgb :=
  frameGet f (y * m_width + x)

/-- Modelled from the spec: `Display::fill` is declared in `Display.hpp` and its
body is in `Display.cpp`, which is not among the sources. The spec has
`fill(color)` set "every pixel to `color`". -/
def fill (_f : Frame) (color : Rgb) : Frame := fun _ => color

/-- The inline member `Display::clear`: `fill(Rgb(0, 0, 0));`. -/
def clear (f : Frame) : Frame := fill f (Rgb.mk 0 0 0)

/-- The type of the member `Display::drawRectangle(int x, int y, int width,
int height, Rgb color, int strokeWidth)`. It is declared in `Display.hpp`; its
body is in `Display.cpp`, which is not among the sources, so the members below
that call it take it as an argument. -/
abbrev DrawRectangle : Type :=
  Frame → Int → Int → Int → Int → Rgb → Int → Option Frame

/-- The inline member `Display::drawRectangleFilled(int, int, int, int, Rgb)`:
`drawRectangle(x, y, width, height, color, INT_MAX);`. -/
def drawRectangleFilled (drawRectangle : DrawRectangle) (f : Frame)
    (x y width height : Int) (color : Rgb) : Option Frame :=
  drawRectangle f x y width height color INT_MAX

/-- The inline member `Display::drawRectangleFilled(const Rectangle&, Rgb)`:
`drawRectangle(rect.x, rect.y, rect.w, rect.h, color, INT_MAX);`. -/
def drawRectangleFilledRect (drawRectangle : DrawRectangle) (f : Frame)
    (rect : Rectangle) (color : Rgb) : Option Frame :=
  drawRectangle f rect.x rect.y rect.w rect.h color INT_MAX

/-- The inline member `Display::drawSquare`:
`drawRectangle(x, y, size, size, color, strokeWidth);`. -/
def drawSquare (drawRectangle : DrawRectangle) (f : Frame)
    (x y size : Int) (color : Rgb) (strokeWidth : Int) : Option Frame :=
  drawRectangle f x y size size color strokeWidth

/-- The inline member `Display::drawSquareFilled`:
`drawSquare(x, y, size, color, INT_MAX);`. -/
def drawSquareFilled (drawRectangle : DrawRectangle) (f : Frame)
    (x y size : Int) (color : Rgb) : Option Frame :=
  drawSquare drawRectangle f x y size color INT_MAX

/-! ## ArduinoLikeUtils.hpp

`long` is the 32-bit signed type of the ESP32 targets: a `long` is an `Int` in
`[-2^31, 2^31)`, and `uint32_t` / `uint64_t` values are `Nat` below `2^32` /
`2^64`. -/

/-- The number of `uint32_t` values, `2^32`. -/
def UINT32_SIZE : Nat := 4294967296

/-- The number of `uint64_t` values, `2^64`. -/
def UINT64_SIZE : Nat := 18446744073709551616

/-- Conversion of a signed value to `uint32_t` (reduction modulo `2^32`). -/
def toUint32 (v : Int) : Nat := (v % 4294967296).toNat

/-- Conversion of a signed value to `uint64_t` (reduction modulo `2^64`). -/
def toUint64 (v : Int) : Nat := (v % 18446744073709551616).toNat

/-- Conversion of an integer value to the 32-bit `long` (two's complement). -/
def toLong (v : Int) : Int := wrapInt v

/-- The hardware random number generator behind `esp_random()`: the values it
will hand out, and the position of the next one. -/
structure Rng where
  samples : Nat → Nat
  pos : Nat

/-- The call `esp_random()`: the next value, as a `uint32_t`, and the generator
after the call. -/
def esp_random (g : Rng) : Nat × Rng :=
  (g.samples g.pos % UINT32_SIZE, { samples := g.samples, pos := g.pos + 1 })

/-- The product `uint64_t(x) * uint64_t(max)` of `random(long max)`. -/
def product64 (x : Nat) (max : Int) : Nat := (x * toUint64 max) % UINT64_SIZE

/-- The rejection threshold of `random(long max)`:
`uint32_t t = -max; if (t >= max) { t -= max; if (t >= max) t %= max; }`.
The comparisons and the arithmetic are unsigned (`max` is converted). -/
def threshold (max : Int) : Nat :=
  let t := toUint32 (-max)
  if t ≥ toUint32 max then
    let t := (t + UINT32_SIZE - toUint32 max) % UINT32_SIZE
    if t ≥ toUint32 max then t % toUint32 max else t
  else t

/-- The loop `while (l < t) { x = esp_random(); m = uint64_t(x) * uint64_t(max);
l = uint32_t(m); }` of `random(long max)`, on the variables `m` and `l`. The
first argument bounds the number of iterations; the result is `none` when the
loop is still running after that many. -/
def randomLoop (max : Int) (t : Nat) : Nat → Nat → Nat → Rng → Option (Nat × Rng)
  | 0, m, l, g => if l < t then none else some (m, g)
  | fuel + 1, m, l, g =>
    if l < t then
      let x := (esp_random g).1
      let m := product64 x max
      let l := m % UINT32_SIZE
      randomLoop max t fuel m l (esp_random g).2
    else some (m, g)

/-- The function `random(long max)`. The result is the returned `long` and the
generator after the call; `fuel` bounds the iterations of the loop. The test
`l < max` compares a `uint32_t` with a `long`, so `max` is converted to unsigned;
`return m >> 32` converts the high word to `long`. -/
def random (max : Int) (fuel : Nat) (g : Rng) : Option (Int × Rng) :=
  let x := (esp_random g).1
  let g := (esp_random g).2
  let m := product64 x max
  let l := m % UINT32_SIZE
  if l < toUint32 max then
    let t := threshold max
    match randomLoop max t fuel m l g with
    | some (m, g) => some (toLong (m / UINT32_SIZE), g)
    | none => none
  else some (toLong (m / UINT32_SIZE), g)

/-- The function `random(long min, long max)`:
`if (min >= max) return min; long diff = max - min; return random(diff) + min;`. -/
def randomMinMax (min max : Int) (fuel : Nat) (g : Rng) : Option (Int × Rng) :=
  if min ≥ max then some (min, g)
  else
    let diff := wrapInt (max - min)
    match random diff fuel g with
    | some (r, g) => some (wrapInt (r + min), g)
    | none => none

/-- The generator that hands out the value `x` at every call. -/
def Rng.const (x : Nat) : Rng := { samples := fun _ => x, pos := 0 }

/-- The value returned by `random(max)` when the first sample is `x` and is
accepted at once; `none` when `x` is rejected. -/
def randomOnSample (max : Int) (x : Nat) : Option Int :=
  (random max 0 (Rng.const x)).map Prod.fst

/-- The value that the `k`-th next call of `esp_random()` returns. -/
def sampleAt (g : Rng) (k : Nat) : Nat := g.samples (g.pos + k) % UINT32_SIZE

/-- The generator that hands out `0, 1, 2, ...`, used as a concrete generator. -/
def countingRng : Rng := { samples := fun i => i, pos := 0 }

/-- The frame with every pixel black, used as a concrete frame. -/
def blackFrame : Frame := fun _ => Rgb.mk 0 0 0

/-- The colour `Rgb(255, 0, 0)`, used as a concrete colour. -/
def red : Rgb := Rgb.mk 255 0 0

/-! ## Properties of `setColor` -/

/-- Inside the guard of `setColor` the `int` arithmetic of the index does not
wrap: the index is `y * m_width + x`. -/
theorem frameIndex_eq (x y : Int) (hx0 : 0 ≤ x) (hx : x ≤ m_width - 1)
    (hy0 : 0 ≤ y) (hy : y ≤ m_width - 1) : frameIndex x y = y * m_width + x := by
  unfold frameIndex wrapInt m_width at *
  omega

/-- Writing through `frameSet` and reading the resulting frame. -/
theorem frameSet_apply (f : Frame) (i : Int) (c : Rgb) (h0 : 0 ≤ i)
    (h1 : i < (frameSize : Int)) :
    ∃ f1, frameSet f i c = some f1 ∧
      ∀ j : Fin frameSize, f1 j = if (j : Int) = i then c else f j := by
  refine ⟨_, dif_pos ⟨h0, h1⟩, ?_⟩
  intro j
  by_cases hj : (j : Int) = i
  · have hji : j = ⟨i.toNat, by omega⟩ := by
      apply Fin.ext
      show (j : Nat) = i.toNat
      omega
    rw [if_pos hj, hji, Function.update_same]
  · have hji : j ≠ ⟨i.toNat, by omega⟩ := by
      intro hEq
      apply hj
      have h2 : (j : Nat) = i.toNat := congrArg Fin.val hEq
      omega
    rw [if_neg hj, Function.update_noteq hji]

/-- The guard of `setColor` returns early: the frame is left as it was. -/
theorem setColor_guarded (f : Frame) (x y : Int) (c : Rgb)
    (h : x > m_width - 1 ∨ y > m_width - 1 ∨ x < 0 ∨ y < 0) :
    setColor f x y c = some f := by
  unfold setColor
  rw [if_pos h]

/-- C1 (the code at a coordinate inside the display): on the black frame,
`setColor(0, 10, Rgb(255, 0, 0))` returns at its guard, because row 10 is compared
with `m_width - 1 = 9`, and leaves the frame as it was; the pixel read back at
`(0, 10)`, the frame element of index `10 * m_width + 0 = 100`, is black, not the
colour written, although `0 ≤ 0 < m_width` and `0 ≤ 10 < m_height`. -/
theorem setColor_row_ten_not_written :
    ((0 : Int) ≤ 0 ∧ (0 : Int) < m_width ∧ (0 : Int) ≤ 10 ∧ (10 : Int) < m_height) ∧
    setColor blackFrame 0 10 red = some blackFrame ∧
    (setColor blackFrame 0 10 red).bind (fun f => Display.at f 0 10)
      = some (Rgb.mk 0 0 0) ∧
    (setColor blackFrame 0 10 red).bind (fun f => frameGet f 100)
      = some (Rgb.mk 0 0 0) ∧
    Rgb.mk 0 0 0 ≠ red := by
  have hs : setColor blackFrame 0 10 red = some blackFrame :=
    setColor_guarded blackFrame 0 10 red (by decide)
  refine ⟨by decide, hs, ?_, ?_, by decide⟩
  · rw [hs]; rfl
  · rw [hs]; rfl

/-- C2: for a coordinate outside the display (`x < 0`, or `x ≥ m_width`, or
`y < 0`, or `y ≥ m_height`), `setColor(x, y, c)` is a no-op: the frame after the
call is the frame before it. -/
theorem setColor_outside_noop (f : Frame) (x y : Int) (c : Rgb)
    (h : x < 0 ∨ x ≥ m_width ∨ y < 0 ∨ y ≥ m_height) :
    setColor f x y c = some f := by
  apply setColor_guarded
  unfold m_width m_height at *
  omega

/-- C2 at the concrete coordinate `(10, 3)`, right of the last column. -/
theorem setColor_outside_noop_witness :
    ((10 : Int) < 0 ∨ (10 : Int) ≥ m_width ∨ (3 : Int) < 0 ∨ (3 : Int) ≥ m_height) ∧
    setColor blackFrame 10 3 red = some blackFrame :=
  ⟨by decide, setColor_outside_noop blackFrame 10 3 red (by decide)⟩

/-- C8: the bound check of `setColor` compares both axes with `m_width`. The
call always ends with a frame, and element `i` of that frame is `c` when
`0 ≤ x ≤ m_width - 1`, `0 ≤ y ≤ m_width - 1` and `i = y * m_width + x`, and is
the element of the frame before the call otherwise; when `x` or `y` is not in
`[0, m_width - 1]`, and so for the rows `m_width ≤ y < m_height`, the frame is
the frame before the call. -/
theorem setColor_spec (f : Frame) (x y : Int) (c : Rgb) :
    (∃ f1, setColor f x y c = some f1 ∧
      ∀ i : Fin frameSize, f1 i =
        if (0 ≤ x ∧ x ≤ m_width - 1 ∧ 0 ≤ y ∧ y ≤ m_width - 1) ∧
            (i : Int) = y * m_width + x
        then c else f i) ∧
    ((0 ≤ x ∧ x ≤ m_width - 1 ∧ 0 ≤ y ∧ y ≤ m_width - 1) →
      ∃ i : Fin frameSize, (i : Int) = y * m_width + x) ∧
    (¬ (0 ≤ x ∧ x ≤ m_width - 1 ∧ 0 ≤ y ∧ y ≤ m_width - 1) →
      setColor f x y c = some f) ∧
    (m_width ≤ y ∧ y < m_height → setColor f x y c = some f) := by
  have hout : ¬ (0 ≤ x ∧ x ≤ m_width - 1 ∧ 0 ≤ y ∧ y ≤ m_width - 1) →
      setColor f x y c = some f := by
    intro hn
    apply setColor_guarded
    unfold m_width at *
    omega
  refine ⟨?_, ?_, hout, ?_⟩
  · by_cases hin : 0 ≤ x ∧ x ≤ m_width - 1 ∧ 0 ≤ y ∧ y ≤ m_width - 1
    · obtain ⟨hx0, hx, hy0, hy⟩ := hin
      have hidx := frameIndex_eq x y hx0 hx hy0 hy
      have hg : ¬ (x > m_width - 1 ∨ y > m_width - 1 ∨ x < 0 ∨ y < 0) := by
        unfold m_width at *
        omega
      have h0 : 0 ≤ y * m_width + x := by unfold m_width at *; omega
      have h1 : y * m_width + x < (frameSize : Int) := by
        unfold m_width frameSize at *
        omega
      obtain ⟨f1, hf1, hget⟩ := frameSet_apply f (y * m_width + x) c h0 h1
      refine ⟨f1, ?_, ?_⟩
      · unfold setColor
        rw [if_neg hg, hidx]
        exact hf1
      · intro i
        rw [hget i]
        by_cases hi : (i : Int) = y * m_width + x
        · rw [if_pos hi, if_pos ⟨⟨hx0, hx, hy0, hy⟩, hi⟩]
        · rw [if_neg hi, if_neg (fun h => hi h.2)]
    · refine ⟨f, hout hin, ?_⟩
      intro i
      rw [if_neg (fun h => hin h.1)]
  · rintro ⟨hx0, hx, hy0, hy⟩
    have h0 : 0 ≤ y * m_width + x := by unfold m_width at *; omega
    have h1 : y * m_width + x < (frameSize : Int) := by
      unfold m_width frameSize at *
      omega
    refine ⟨⟨(y * m_width + x).toNat, by omega⟩, ?_⟩
    show (((y * m_width + x).toNat : Nat) : Int) = y * m_width + x
    omega
  · rintro ⟨hy0, _⟩
    apply setColor_guarded
    unfold m_width at *
    omega

/-- C8 at concrete inputs: `setColor(3, 4, red)` on the black frame writes
element 43, and `setColor(3, 10, red)` leaves the frame as it was. -/
theorem setColor_spec_witness :
    (∃ f1, setColor blackFrame 3 4 red = some f1 ∧
      ∀ i : Fin frameSize, f1 i =
        if ((0 : Int) ≤ 3 ∧ (3 : Int) ≤ m_width - 1 ∧ (0 : Int) ≤ 4 ∧ (4 : Int) ≤ m_width - 1) ∧
            (i : Int) = 4 * m_width + 3
        then red else blackFrame i) ∧
    setColor blackFrame 3 10 red = some blackFrame :=
  ⟨(setColor_spec blackFrame 3 4 red).1,
   (setColor_spec blackFrame 3 10 red).2.2.2 (by decide)⟩

/-- C9: whenever `setColor(x, y, c)` gets past its guard to the write to
`m_frame`, the index `(y * m_width) + x`, computed in `int` arithmetic, is
`y * m_width + x` and lies in `[0, m_width * m_height) = [0, 120)`; the write is
inside the array, so `setColor` never ends in an access outside the array. -/
theorem setColor_index_in_range (f : Frame) (x y : Int) (c : Rgb)
    (h : ¬ (x > m_width - 1 ∨ y > m_width - 1 ∨ x < 0 ∨ y < 0)) :
    frameIndex x y = y * m_width + x ∧
    0 ≤ frameIndex x y ∧ frameIndex x y < m_width * m_height ∧
    m_width * m_height = 120 ∧ (frameSize : Int) = m_width * m_height ∧
    setColor f x y c = frameSet f (frameIndex x y) c ∧
    setColor f x y c ≠ none := by
  have hx0 : 0 ≤ x := by omega
  have hy0 : 0 ≤ y := by omega
  have hx : x ≤ m_width - 1 := by omega
  have hy : y ≤ m_width - 1 := by omega
  have hidx := frameIndex_eq x y hx0 hx hy0 hy
  have hs : setColor f x y c = frameSet f (frameIndex x y) c := by
    unfold setColor
    rw [if_neg h]
  have h0 : 0 ≤ frameIndex x y := by rw [hidx]; unfold m_width at *; omega
  have h1 : frameIndex x y < (frameSize : Int) := by
    rw [hidx]; unfold m_width frameSize at *; omega
  refine ⟨hidx, h0, ?_, by decide, by decide, hs, ?_⟩
  · have : m_width * m_height = (frameSize : Int) := by decide
    rw [this]; exact h1
  · rw [hs]
    obtain ⟨f1, hf1, _⟩ := frameSet_apply f (frameIndex x y) c h0 h1
    rw [hf1]
    exact Option.some_ne_none f1

/-- C9 at the concrete coordinate `(9, 9)`, the largest index the write reaches. -/
theorem setColor_index_in_range_witness :
    frameIndex 9 9 = 99 ∧ setColor blackFrame 9 9 red ≠ none :=
  have h := setColor_index_in_range blackFrame 9 9 red (by decide)
  ⟨by decide, h.2.2.2.2.2.2⟩

/-! ## `clear`, and the rectangle and square members -/

/-- C3: `clear()` leaves the frame in the state that `fill(Rgb(0, 0, 0))` leaves
it in, every pixel of it is black, and the result does not depend on the frame
before the call. -/
theorem clear_eq_fill_black (f : Frame) :
    clear f = fill f (Rgb.mk 0 0 0) ∧
    (∀ i : Fin frameSize, clear f i = Rgb.mk 0 0 0) ∧
    (∀ g : Frame, clear g = clear f) :=
  ⟨rfl, fun _ => rfl, fun _ => rfl⟩

/-- C4: both `drawRectangleFilled` overloads have the effect of
`drawRectangle(x, y, width, height, color, INT_MAX)`, with `INT_MAX = 2^31 - 1`,
whatever `drawRectangle` does. -/
theorem drawRectangleFilled_eq_drawRectangle (drawRectangle : DrawRectangle)
    (f : Frame) (x y width height : Int) (color : Rgb) :
    drawRectangleFilled drawRectangle f x y width height color
      = drawRectangle f x y width height color INT_MAX ∧
    drawRectangleFilledRect drawRectangle f (Rectangle.mk x y width height) color
      = drawRectangle f x y width height color INT_MAX ∧
    INT_MAX = 2 ^ 31 - 1 :=
  ⟨rfl, rfl, by decide⟩

/-- C5: `drawSquare(x, y, size, color, strokeWidth)` has the effect of
`drawRectangle(x, y, size, size, color, strokeWidth)`, and
`drawSquareFilled(x, y, size, color)` the effect of
`drawRectangleFilled(x, y, size, size, color)`, whatever `drawRectangle` does. -/
theorem drawSquare_eq_drawRectangle (drawRectangle : DrawRectangle)
    (f : Frame) (x y size : Int) (color : Rgb) (strokeWidth : Int) :
    drawSquare drawRectangle f x y size color strokeWidth
      = drawRectangle f x y size size color strokeWidth ∧
    drawSquareFilled drawRectangle f x y size color
      = drawRectangleFilled drawRectangle f x y size size color :=
  ⟨rfl, rfl⟩

/-! ## Properties of `random` -/

/-- A positive `long` converts to `uint32_t` unchanged. -/
theorem toUint32_of_pos (max : Int) (h0 : 0 < max) (h1 : max < 2 ^ 31) :
    toUint32 max = max.toNat := by
  unfold toUint32
  omega

/-- A positive `long` converts to `uint64_t` unchanged. -/
theorem toUint64_of_pos (max : Int) (h0 : 0 < max) (h1 : max < 2 ^ 31) :
    toUint64 max = max.toNat := by
  unfold toUint64
  omega

/-- The conversion `uint32_t t = -max` gives `2^32 - max`. -/
theorem toUint32_neg (max : Int) (h0 : 0 < max) (h1 : max < 2 ^ 31) :
    toUint32 (-max) = 4294967296 - max.toNat := by
  unfold toUint32
  omega

/-- The threshold computed by the code is `2^32 mod max`. -/
theorem threshold_eq (max : Int) (h0 : 0 < max) (h1 : max < 2 ^ 31) :
    threshold max = 4294967296 % max.toNat := by
  have hM0 : 0 < max.toNat := by omega
  have hM1 : max.toNat < 2147483648 := by omega
  unfold threshold
  simp only [toUint32_of_pos max h0 h1, toUint32_neg max h0 h1, UINT32_SIZE]
  generalize max.toNat = M at hM0 hM1
  have e1 : (4294967296 - M + 4294967296 - M) % 4294967296 = 4294967296 - M - M := by
    omega
  have e2 : 4294967296 % M = (4294967296 - M - M) % M := by
    have : 4294967296 = (4294967296 - M - M) + M * 2 := by omega
    conv_lhs => rw [this]
    exact Nat.add_mul_mod_self_left _ _ _
  rw [if_pos (by omega : 4294967296 - M ≥ M), e1, e2]
  split
  · rfl
  · rename_i hlt
    exact (Nat.mod_eq_of_lt (by omega)).symm

/-- The threshold is below `max`. -/
theorem threshold_lt (max : Int) (h0 : 0 < max) (h1 : max < 2 ^ 31) :
    threshold max < max.toNat := by
  rw [threshold_eq max h0 h1]
  exact Nat.mod_lt _ (by omega)

/-- The 64-bit product of a 32-bit sample and a positive `long` does not wrap. -/
theorem product64_eq (x : Nat) (max : Int) (hx : x < 4294967296) (h0 : 0 < max)
    (h1 : max < 2 ^ 31) : product64 x max = x * max.toNat := by
  have hM1 : max.toNat < 2147483648 := by omega
  unfold product64
  rw [toUint64_of_pos max h0 h1]
  apply Nat.mod_eq_of_lt
  have : x * max.toNat < 4294967296 * 2147483648 :=
    Nat.mul_lt_mul'' hx hM1
  unfold UINT64_SIZE
  omega

/-- The high word of the product is below `max`. -/
theorem high_word_lt (x M : Nat) (hx : x < 4294967296) :
    x * M / 4294967296 < M ∨ M = 0 := by
  rcases Nat.eq_zero_or_pos M with h | h
  · exact Or.inr h
  · left
    apply Nat.div_lt_of_lt_mul
    exact Nat.mul_lt_mul_of_pos_right hx h

/-- The high word of the product converts to `long` unchanged. -/
theorem toLong_high_word (x : Nat) (max : Int) (hx : x < 4294967296) (h0 : 0 < max)
    (h1 : max < 2 ^ 31) :
    toLong ((x * max.toNat / UINT32_SIZE : Nat) : Int)
      = ((x * max.toNat / 4294967296 : Nat) : Int) := by
  have h := high_word_lt x max.toNat hx
  unfold toLong wrapInt UINT32_SIZE
  omega

/-- The loop is left at once when `l` is not below the threshold. -/
theorem randomLoop_done (max : Int) (t fuel m l : Nat) (g : Rng) (h : ¬ l < t) :
    randomLoop max t fuel m l g = some (m, g) := by
  cases fuel <;> simp [randomLoop, h]

/-- The first test `l < max` of `random` only saves the computation of the
threshold: `random` is the loop run from the first sample. -/
theorem random_eq_loop (max : Int) (h0 : 0 < max) (h1 : max < 2 ^ 31) (fuel : Nat)
    (g : Rng) :
    random max fuel g =
      (randomLoop max (threshold max) fuel (product64 (esp_random g).1 max)
        (product64 (esp_random g).1 max % UINT32_SIZE) (esp_random g).2).map
        (fun p => (toLong ((p.1 / UINT32_SIZE : Nat) : Int), p.2)) := by
  unfold random
  simp only
  split
  · cases randomLoop max (threshold max) fuel (product64 (esp_random g).1 max)
      (product64 (esp_random g).1 max % UINT32_SIZE) (esp_random g).2 <;> rfl
  · rename_i hge
    have hlt := threshold_lt max h0 h1
    rw [toUint32_of_pos max h0 h1] at hge
    rw [randomLoop_done _ _ _ _ _ _ (by omega)]
    rfl

/-- One step of `random`: the first sample `x` is accepted when
`(x * max) mod 2^32` is not below the threshold, and the result is then the high
word of `x * max`; otherwise `random` goes on as a fresh call on the rest of the
samples, with one iteration less. -/
theorem random_step (max : Int) (h0 : 0 < max) (h1 : max < 2 ^ 31) (fuel : Nat)
    (g : Rng) :
    random max fuel g =
      if threshold max ≤ ((esp_random g).1 * max.toNat) % 4294967296 then
        some ((((esp_random g).1 * max.toNat / 4294967296 : Nat) : Int), (esp_random g).2)
      else
        match fuel with
        | 0 => none
        | k + 1 => random max k (esp_random g).2 := by
  have hx : (esp_random g).1 < 4294967296 := Nat.mod_lt _ (by decide)
  rw [random_eq_loop max h0 h1 fuel g, product64_eq _ max hx h0 h1]
  by_cases hacc : threshold max ≤ ((esp_random g).1 * max.toNat) % 4294967296
  · rw [if_pos hacc, randomLoop_done _ _ _ _ _ _ (by unfold UINT32_SIZE; omega)]
    simp only [Option.map_some']
    rw [toLong_high_word _ max hx h0 h1]
  · rw [if_neg hacc]
    have hl : (esp_random g).1 * max.toNat % UINT32_SIZE < threshold max := by
      unfold UINT32_SIZE; omega
    cases fuel with
    | zero => simp [randomLoop, hl]
    | succ k =>
      show _ = random max k (esp_random g).2
      rw [random_eq_loop max h0 h1 k (esp_random g).2]
      simp only [randomLoop, hl, if_true]

/-- What a returning call of `random` has done: it drew `k + 1` samples for some
`k ≤ fuel`, the last one is the first whose low product word is not below the
threshold, and the result is the high word of that product. -/
theorem random_result (max : Int) (h0 : 0 < max) (h1 : max < 2 ^ 31) :
    ∀ (fuel : Nat) (g : Rng) (v : Int) (g1 : Rng), random max fuel g = some (v, g1) →
      ∃ k, k ≤ fuel ∧ g1.samples = g.samples ∧ g1.pos = g.pos + k + 1 ∧
        threshold max ≤ (sampleAt g k * max.toNat) % 4294967296 ∧
        (∀ j, j < k → (sampleAt g j * max.toNat) % 4294967296 < threshold max) ∧
        v = ((sampleAt g k * max.toNat / 4294967296 : Nat) : Int) := by
  intro fuel
  induction fuel with
  | zero =>
    intro g v g1 h
    rw [random_step max h0 h1 0 g] at h
    split at h
    · rename_i hacc
      simp only [Option.some.injEq, Prod.mk.injEq] at h
      refine ⟨0, le_refl 0, ?_, ?_, hacc, ?_, h.1.symm⟩
      · rw [← h.2]; rfl
      · rw [← h.2]; rfl
      · intro j hj; omega
    · exact absurd h (by simp)
  | succ n ih =>
    intro g v g1 h
    rw [random_step max h0 h1 (n + 1) g] at h
    split at h
    · rename_i hacc
      simp only [Option.some.injEq, Prod.mk.injEq] at h
      refine ⟨0, Nat.zero_le _, ?_, ?_, hacc, ?_, h.1.symm⟩
      · rw [← h.2]; rfl
      · rw [← h.2]; rfl
      · intro j hj; omega
    · rename_i hrej
      obtain ⟨k, hk, hs, hp, hacc, hprev, hv⟩ := ih (esp_random g).2 v g1 h
      have hshift : ∀ j, sampleAt (esp_random g).2 j = sampleAt g (j + 1) := by
        intro j
        show g.samples (g.pos + 1 + j) % UINT32_SIZE = g.samples (g.pos + (j + 1)) % UINT32_SIZE
        rw [Nat.add_assoc, Nat.add_comm 1 j]
      refine ⟨k + 1, by omega, hs, ?_, ?_, ?_, ?_⟩
      · rw [hp]
        show g.pos + 1 + k + 1 = g.pos + (k + 1) + 1
        omega
      · rw [← hshift k]; exact hacc
      · intro j hj
        cases j with
        | zero =>
          have : sampleAt g 0 = (esp_random g).1 := rfl
          rw [this]; omega
        | succ i =>
          rw [← hshift i]
          exact hprev i (by omega)
      · rw [← hshift k]; exact hv

/-- The call `random(max)` returns as soon as a sample is accepted: when one of
the next `fuel + 1` samples has its low product word not below the threshold,
the call returns within `fuel` iterations of its loop. -/
theorem random_returns (max : Int) (h0 : 0 < max) (h1 : max < 2 ^ 31) :
    ∀ (fuel : Nat) (g : Rng),
      (∃ k, k ≤ fuel ∧ threshold max ≤ (sampleAt g k * max.toNat) % 4294967296) →
      ∃ v g1, random max fuel g = some (v, g1) := by
  intro fuel
  induction fuel with
  | zero =>
    rintro g ⟨k, hk, hacc⟩
    have hk0 : k = 0 := by omega
    subst hk0
    rw [random_step max h0 h1 0 g]
    have : sampleAt g 0 = (esp_random g).1 := rfl
    rw [this] at hacc
    rw [if_pos hacc]
    exact ⟨_, _, rfl⟩
  | succ n ih =>
    rintro g ⟨k, hk, hacc⟩
    rw [random_step max h0 h1 (n + 1) g]
    by_cases h : threshold max ≤ ((esp_random g).1 * max.toNat) % 4294967296
    · rw [if_pos h]
      exact ⟨_, _, rfl⟩
    · rw [if_neg h]
      cases k with
      | zero => exact absurd hacc h
      | succ i =>
        apply ih (esp_random g).2
        refine ⟨i, by omega, ?_⟩
        have : sampleAt (esp_random g).2 i = sampleAt g (i + 1) := by
          show g.samples (g.pos + 1 + i) % UINT32_SIZE
            = g.samples (g.pos + (i + 1)) % UINT32_SIZE
          rw [Nat.add_assoc, Nat.add_comm 1 i]
        rw [this]; exact hacc

/-- The high word of the product, as the integer quotient of `x * max`. -/
theorem high_word_cast (x : Nat) (max : Int) (h0 : 0 < max) :
    ((x * max.toNat / 4294967296 : Nat) : Int) = (x : Int) * max / 4294967296 := by
  have hM : ((max.toNat : Nat) : Int) = max := Int.toNat_of_nonneg (le_of_lt h0)
  push_cast
  rw [hM]

/-- The result of `random(max)` lies in `[0, max)`. -/
theorem random_result_bounds (max : Int) (h0 : 0 < max) (h1 : max < 2 ^ 31)
    (fuel : Nat) (g : Rng) (v : Int) (g1 : Rng) (h : random max fuel g = some (v, g1)) :
    0 ≤ v ∧ v < max := by
  obtain ⟨k, _, _, _, _, _, hv⟩ := random_result max h0 h1 fuel g v g1 h
  have hx : sampleAt g k < 4294967296 := Nat.mod_lt _ (by decide)
  have hlt := high_word_lt (sampleAt g k) max.toNat hx
  omega

/-- C6: let `0 < max < 2^31`. Whenever `random(max)` returns, on any sequence of
`esp_random()` values and within any number of loop iterations, its result `r`
satisfies `0 ≤ r < max`, and `r` is the high 32 bits `(x * max) div 2^32` of the
product of the last sample drawn, `x`, which is the accepted one. The call does
return: when one of the next `fuel + 1` samples is accepted, it returns within
`fuel` iterations. -/
theorem random_range (max : Int) (h0 : 0 < max) (h1 : max < 2 ^ 31) (fuel : Nat)
    (g : Rng) :
    (∀ (r : Int) (g1 : Rng), random max fuel g = some (r, g1) →
      0 ≤ r ∧ r < max ∧
      ∃ k, k ≤ fuel ∧ g1.pos = g.pos + k + 1 ∧
        threshold max ≤ (sampleAt g k * max.toNat) % 4294967296 ∧
        r = (sampleAt g k : Int) * max / 4294967296) ∧
    ((∃ k, k ≤ fuel ∧ threshold max ≤ (sampleAt g k * max.toNat) % 4294967296) →
      ∃ r g1, random max fuel g = some (r, g1)) := by
  refine ⟨?_, random_returns max h0 h1 fuel g⟩
  intro r g1 h
  obtain ⟨hr0, hr1⟩ := random_result_bounds max h0 h1 fuel g r g1 h
  obtain ⟨k, hk, _, hp, hacc, _, hv⟩ := random_result max h0 h1 fuel g r g1 h
  refine ⟨hr0, hr1, k, hk, hp, hacc, ?_⟩
  rw [hv, high_word_cast _ max h0]

/-- C6 at the concrete input `max = 6` on the samples `0, 1, 2, ...`: the sample
`0` is rejected, the sample `1` is accepted, and `random(6)` returns `0`. -/
theorem random_range_witness :
    ((0 : Int) < 6 ∧ (6 : Int) < 2 ^ 31) ∧
    random 6 5 countingRng = some (0, { samples := fun i => i, pos := 2 }) ∧
    ((0 : Int) ≤ 0 ∧ (0 : Int) < 6) ∧
    (∃ r g1, random 6 5 countingRng = some (r, g1)) :=
  have h := random_range 6 (by decide) (by decide) 5 countingRng
  have hr := (h.1 0 { samples := fun i => i, pos := 2 } rfl)
  ⟨⟨by decide, by decide⟩, rfl, ⟨hr.1, hr.2.1⟩, h.2 ⟨1, by decide, by decide⟩⟩

/-! ## Properties of `random(min, max)` -/

/-- C7: for `long` values `min`, `max`: when `min ≥ max`, `random(min, max)`
returns `min` and draws no sample (the generator is left as it was). When
`min < max` and `max - min < 2^31`, whenever the call returns its result `r`
satisfies `min ≤ r < max`; and it does return, within `fuel` loop iterations,
when one of the next `fuel + 1` samples is accepted for `max - min`. -/
theorem randomMinMax_range (min max : Int) (hmin : -(2 ^ 31) ≤ min)
    (hmax : max < 2 ^ 31) (fuel : Nat) (g : Rng) :
    (min ≥ max → randomMinMax min max fuel g = some (min, g)) ∧
    (min < max → max - min < 2 ^ 31 →
      (∀ (r : Int) (g1 : Rng), randomMinMax min max fuel g = some (r, g1) →
        min ≤ r ∧ r < max) ∧
      ((∃ k, k ≤ fuel ∧
          threshold (max - min) ≤ (sampleAt g k * (max - min).toNat) % 4294967296) →
        ∃ r g1, randomMinMax min max fuel g = some (r, g1))) := by
  constructor
  · intro h
    unfold randomMinMax
    rw [if_pos h]
  · intro hlt hdiff
    have hd0 : 0 < max - min := by omega
    have hw : wrapInt (max - min) = max - min := by
      unfold wrapInt
      omega
    have hge : ¬ min ≥ max := by omega
    constructor
    · intro r g1 h
      unfold randomMinMax at h
      rw [if_neg hge] at h
      simp only [hw] at h
      cases hrand : random (max - min) fuel g with
      | none =>
        rw [hrand] at h
        exact absurd h (by simp)
      | some p =>
        obtain ⟨v, g2⟩ := p
        rw [hrand] at h
        simp only [Option.some.injEq, Prod.mk.injEq] at h
        obtain ⟨hv0, hv1⟩ :=
          random_result_bounds (max - min) hd0 hdiff fuel g v g2 hrand
        have hr : r = wrapInt (v + min) := h.1.symm
        rw [hr]
        unfold wrapInt
        omega
    · intro hex
      obtain ⟨v, g2, hrand⟩ := random_returns (max - min) hd0 hdiff fuel g hex
      unfold randomMinMax
      rw [if_neg hge]
      simp only [hw, hrand]
      exact ⟨_, _, rfl⟩

/-- C7 at concrete inputs: `random(5, 4)` returns `5` and leaves the generator as
it was; `random(-3, 4)` on the samples `0, 1, 2, ...` returns `-3`, which lies in
`[-3, 4)`, after two samples. -/
theorem randomMinMax_range_witness :
    randomMinMax 5 4 5 countingRng = some (5, countingRng) ∧
    randomMinMax (-3) 4 5 countingRng = some (-3, { samples := fun i => i, pos := 2 }) ∧
    ((-3 : Int) ≤ -3 ∧ (-3 : Int) < 4) ∧
    (∃ r g1, randomMinMax (-3) 4 5 countingRng = some (r, g1)) :=
  have h5 := randomMinMax_range 5 4 (by decide) (by decide) 5 countingRng
  have h3 := randomMinMax_range (-3) 4 (by decide) (by decide) 5 countingRng
  have h3b := h3.2 (by decide) (by decide)
  ⟨h5.1 (by decide), rfl,
   h3b.1 (-3) { samples := fun i => i, pos := 2 } rfl,
   h3b.2 ⟨1, by decide, by decide⟩⟩

/-! ## Uniformity of `random` -/

/-- Rounding up: `a ≤ x * M` exactly when `x` is at least `⌈a / M⌉`. -/
theorem le_mul_iff_ceil_le (a M x : Nat) (hM : 0 < M) :
    a ≤ x * M ↔ (a + M - 1) / M ≤ x := by
  have h1 : (a + M - 1) / M ≤ x ↔ (a + M - 1) / M < x + 1 := by omega
  rw [h1, Nat.div_lt_iff_lt_mul hM, Nat.add_mul, Nat.one_mul]
  omega

/-- A window of length `M * q` holds exactly `q` multiples of `M`. -/
theorem card_multiples_in_window (M q a N : Nat) (hM : 0 < M)
    (hN : ∀ x, x * M < a + M * q → x < N) :
    ((Finset.range N).filter (fun x => a ≤ x * M ∧ x * M < a + M * q)).card = q := by
  have hceil : (a + M * q + M - 1) / M = (a + M - 1) / M + q := by
    have : a + M * q + M - 1 = a + M - 1 + M * q := by omega
    rw [this, Nat.add_mul_div_left _ _ hM]
  have hupper : ∀ x, x * M < a + M * q ↔ x < (a + M - 1) / M + q := by
    intro x
    have h := le_mul_iff_ceil_le (a + M * q) M x hM
    rw [hceil] at h
    omega
  have hset : (Finset.range N).filter (fun x => a ≤ x * M ∧ x * M < a + M * q)
      = Finset.Ico ((a + M - 1) / M) ((a + M - 1) / M + q) := by
    ext x
    simp only [Finset.mem_filter, Finset.mem_range, Finset.mem_Ico]
    constructor
    · rintro ⟨_, hlo, hhi⟩
      exact ⟨(le_mul_iff_ceil_le a M x hM).1 hlo, (hupper x).1 hhi⟩
    · rintro ⟨hlo, hhi⟩
      have h2 := (hupper x).2 hhi
      exact ⟨hN x h2, (le_mul_iff_ceil_le a M x hM).2 hlo, h2⟩
  rw [hset, Nat.card_Ico]
  omega

/-- The call `random(max)` on a first sample `x`, with no further sample
allowed: `x` is accepted when its low product word is not below the threshold. -/
theorem randomOnSample_eq (max : Int) (h0 : 0 < max) (h1 : max < 2 ^ 31) (x : Nat)
    (hx : x < 4294967296) :
    randomOnSample max x =
      if threshold max ≤ (x * max.toNat) % 4294967296 then
        some ((x * max.toNat / 4294967296 : Nat) : Int)
      else none := by
  have hs : (esp_random (Rng.const x)).1 = x := Nat.mod_eq_of_lt hx
  unfold randomOnSample
  rw [random_step max h0 h1 0 (Rng.const x), hs]
  split <;> rfl

/-- The accepted samples with result `r` are those whose product with `max`
lies in the window `[r * 2^32 + t, r * 2^32 + t + max * (2^32 div max))`. -/
theorem randomOnSample_iff_window (max : Int) (h0 : 0 < max) (h1 : max < 2 ^ 31)
    (r : Int) (hr0 : 0 ≤ r) (x : Nat) (hx : x < 4294967296) :
    randomOnSample max x = some r ↔
      (r.toNat * 4294967296 + 4294967296 % max.toNat ≤ x * max.toNat ∧
        x * max.toNat <
          r.toNat * 4294967296 + 4294967296 % max.toNat
            + max.toNat * (4294967296 / max.toNat)) := by
  have hsum := Nat.mod_add_div 4294967296 max.toNat
  have hlt : 4294967296 % max.toNat < max.toNat := Nat.mod_lt _ (by omega)
  rw [randomOnSample_eq max h0 h1 x hx, threshold_eq max h0 h1]
  generalize x * max.toNat = P at *
  generalize max.toNat * (4294967296 / max.toNat) = Q at *
  generalize 4294967296 % max.toNat = t at *
  split
  · rename_i hacc
    simp only [Option.some.injEq]
    omega
  · rename_i hrej
    constructor
    · intro h
      exact absurd h (by simp)
    · intro h
      omega

/-- C10: let `0 < max < 2^31`. The threshold `t` computed by `random(max)` is
`2^32 mod max`; a sample `x` in `[0, 2^32)` is accepted exactly when
`(x * max) mod 2^32 ≥ t`, with result `(x * max) div 2^32`, and a rejected sample
is dropped, the call going on with the next sample under the same test; and for
every `r` in `[0, max)` the number of samples `x` in `[0, 2^32)` that are
accepted with result `r` is `2^32 div max`. -/
theorem random_unbiased (max : Int) (h0 : 0 < max) (h1 : max < 2 ^ 31) :
    (threshold max : Int) = 4294967296 % max ∧
    (∀ (x : Nat), x < 4294967296 → ∀ (r : Int),
      randomOnSample max x = some r ↔
        ((threshold max : Int) ≤ (x : Int) * max % 4294967296 ∧
          r = (x : Int) * max / 4294967296)) ∧
    (∀ (fuel : Nat) (g : Rng),
      random max fuel g =
        if (threshold max : Int) ≤ (sampleAt g 0 : Int) * max % 4294967296 then
          some ((sampleAt g 0 : Int) * max / 4294967296, (esp_random g).2)
        else
          match fuel with
          | 0 => none
          | k + 1 => random max k (esp_random g).2) ∧
    (∀ (r : Int), 0 ≤ r → r < max →
      ((((Finset.range 4294967296).filter
        (fun x => randomOnSample max x = some r)).card : Nat) : Int)
        = 4294967296 / max) := by
  have hM : ((max.toNat : Nat) : Int) = max := Int.toNat_of_nonneg (le_of_lt h0)
  have hlow : ∀ x : Nat,
      (((x * max.toNat) % 4294967296 : Nat) : Int) = (x : Int) * max % 4294967296 := by
    intro x
    push_cast
    rw [hM]
  have hacc : ∀ x : Nat, threshold max ≤ (x * max.toNat) % 4294967296 ↔
      (threshold max : Int) ≤ (x : Int) * max % 4294967296 := by
    intro x
    rw [← hlow x]
    exact Nat.cast_le.symm
  refine ⟨?_, ?_, ?_, ?_⟩
  · rw [threshold_eq max h0 h1]
    push_cast
    rw [hM]
  · intro x hx r
    rw [randomOnSample_eq max h0 h1 x hx, ← hacc x, ← high_word_cast x max h0]
    split
    · rename_i ha
      simp only [Option.some.injEq]
      exact ⟨fun h => ⟨ha, h.symm⟩, fun h => h.2.symm⟩
    · rename_i hn
      constructor
      · intro h
        exact absurd h (by simp)
      · intro h
        exact absurd h.1 hn
  · intro fuel g
    have hs : sampleAt g 0 = (esp_random g).1 := rfl
    rw [random_step max h0 h1 fuel g, hs, ← high_word_cast _ max h0]
    by_cases ha : threshold max ≤ ((esp_random g).1 * max.toNat) % 4294967296
    · rw [if_pos ha, if_pos ((hacc _).1 ha)]
    · rw [if_neg ha, if_neg (fun h => ha ((hacc _).2 h))]
  · intro r hr0 hr1
    have hfilter : (Finset.range 4294967296).filter
          (fun x => randomOnSample max x = some r)
        = (Finset.range 4294967296).filter (fun x =>
            r.toNat * 4294967296 + 4294967296 % max.toNat ≤ x * max.toNat ∧
            x * max.toNat <
              r.toNat * 4294967296 + 4294967296 % max.toNat
                + max.toNat * (4294967296 / max.toNat)) := by
      apply Finset.filter_congr
      intro x hx
      exact randomOnSample_iff_window max h0 h1 r hr0 x (Finset.mem_range.1 hx)
    rw [hfilter, card_multiples_in_window _ _ _ _ (by omega)]
    · push_cast
      rw [hM]
    · intro x hlt
      have hsum := Nat.mod_add_div 4294967296 max.toNat
      by_contra hge
      have hmul : 4294967296 * max.toNat ≤ x * max.toNat :=
        Nat.mul_le_mul_right _ (by omega)
      generalize x * max.toNat = P at *
      generalize max.toNat * (4294967296 / max.toNat) = Q at *
      generalize 4294967296 % max.toNat = t at *
      omega

/-- C10 at the concrete input `max = 6`: the threshold is `2^32 mod 6 = 4`, the
sample `3` is accepted with result `0` and the sample `0` is rejected, and
`2^32 div 6` samples are accepted with result `3`. -/
theorem random_unbiased_witness :
    ((0 : Int) < 6 ∧ (6 : Int) < 2 ^ 31) ∧
    (threshold 6 : Int) = 4294967296 % 6 ∧
    randomOnSample 6 3 = some 0 ∧
    randomOnSample 6 0 = none ∧
    ((((Finset.range 4294967296).filter
        (fun x => randomOnSample 6 x = some 3)).card : Nat) : Int)
        = 4294967296 / 6 :=
  have h := random_unbiased 6 (by decide) (by decide)
  ⟨⟨by decide, by decide⟩, h.1, (h.2.1 3 (by decide) 0).2 (by decide), rfl,
   h.2.2.2 3 (by decide) (by decide)⟩

end LogicLibrary
